import Mathlib

/-!
Verification of `cycle_buffer/fields.py` (django-cyclebufferfield).

The module stores a fixed-capacity ring buffer across `cycle_size` database
columns (`name_0`, ..., `name_{cycle_size-1}`) plus two integer control
columns (`name_ptr`, `name_len`).  We embed the per-record buffer state as a
structure with a pointer, a length, and a total map from physical slot index
to slot value, and translate each Python operation into a Lean function:

* `CycleBufferDescriptor.__get__`  → `bufferIndexes` / `view` / `viewFK`
* `CycleBuffer.append_object`      → `appendObject`
* `CycleBuffer.append_database`    → `appendDatabase` (the CASE expressions,
  all evaluated against the pre-update row, as SQL does for one UPDATE)
* `CycleBufferDescriptor.__set__`  → `descriptorSet`
* `CycleBufferField.__init__` and `contribute_to_class`
                                   → `cycleBufferFieldInit` / `layoutFieldNames`
-/

namespace CycleBuffer

/-- The per-record buffer state: the `name_ptr` column, the `name_len` column,
and the slot columns `name_i`, modelled as a total map from the physical slot
index `i` to the value stored in column `name_i`. -/
structure BufferState (α : Type) where
  pointer : Nat
  length : Nat
  slots : Nat → α

/-- A freshly created record: both `IntegerField(default=0)` control columns
are zero and every slot column holds the slot field's default value `d`. -/
def freshState {α : Type} (d : α) : BufferState α :=
  { pointer := 0, length := 0, slots := fun _ => d }

/-- `CycleBufferDescriptor.__get__`, index computation: the Python code builds
`itertools.chain(self.buffer_entries[ptr:ptr + buffer_len],
self.buffer_entries[:ptr])` where `buffer_entries` lists the `cycle_size` slot
names in physical order.  Slot names are modelled by their indices, so
`buffer_entries = List.range cap`, the slice `[ptr:ptr+len]` is
`(List.range cap).drop ptr |>.take len`, and `[:ptr]` is
`(List.range cap).take ptr`. -/
def bufferIndexes {α : Type} (cap : Nat) (s : BufferState α) : List Nat :=
  ((List.range cap).drop s.pointer).take s.length ++ (List.range cap).take s.pointer

/-- `CycleBufferDescriptor.__get__`, plain-slot branch: the returned list is
`[getattr(obj, x) for x in indexes]`. -/
def view {α : Type} (cap : Nat) (s : BufferState α) : List α :=
  (bufferIndexes cap s).map s.slots

/-- `CycleBufferDescriptor.__get__`, `ForeignKey` branch: the slots hold the
stored key columns (`getattr(obj, name_i_id)`), `in_bulk` is modelled by the
partial map `lookup`, and the result is `[bulk.get(pk, None) for pk in pks]`
with `pks = [getattr(obj, x) for x in indexes]`: a key that `in_bulk` did not
return resolves to `none`. -/
def viewFK {κ ρ : Type} (cap : Nat) (s : BufferState κ) (lookup : κ → Option ρ) :
    List (Option ρ) :=
  (bufferIndexes cap s).map (fun i => lookup (s.slots i))

/-- `CycleBuffer.append_object`: with `head_ptr = pointer`,
`buffer_len = length` and `cycle_size = cap`, the Python code computes
`target = (head_ptr + buffer_len) % cycle_size`,
`new_buffer_len = min(buffer_len + 1, cycle_size)`, advances the pointer by
`(head_ptr + 1) % cycle_size` exactly when `buffer_len == cycle_size`, then
writes `value` to slot `target` and stores the new pointer and length. -/
def appendObject {α : Type} (cap : Nat) (s : BufferState α) (v : α) : BufferState α :=
  let target := (s.pointer + s.length) % cap
  { pointer := if s.length = cap then (s.pointer + 1) % cap else s.pointer
    length := min (s.length + 1) cap
    slots := fun i => if i = target then v else s.slots i }

/-- `CycleBuffer.append_database`: the generated UPDATE sets, all evaluated by
the engine against the same pre-update row,
`slot_i = CASE (ptr + len) % cycle_size WHEN i THEN value ELSE slot_i END` for
every `i`, `ptr = CASE len WHEN cycle_size THEN (ptr + 1) % cycle_size ELSE ptr
END`, and `len = CASE len + 1 > cycle_size WHEN 1 THEN cycle_size ELSE len + 1
END`. -/
def appendDatabase {α : Type} (cap : Nat) (s : BufferState α) (v : α) : BufferState α :=
  { pointer := if s.length = cap then (s.pointer + 1) % cap else s.pointer
    length := if s.length + 1 > cap then cap else s.length + 1
    slots := fun i => if (s.pointer + s.length) % cap = i then v else s.slots i }

/-- `CycleBufferDescriptor.__set__`: the body is `pass`, so assigning to the
buffer attribute neither mutates the record nor raises. -/
def descriptorSet {α β : Type} (s : BufferState α) (_v : β) : BufferState α :=
  s

/-- The data `CycleBufferField.__init__` stores.  (The prototype slot field is
opaque to everything we verify, so only `cycle_size` is kept.) -/
structure CycleBufferFieldData where
  cycle_size : Int
  deriving DecidableEq

/-- `CycleBufferField.__init__(self, slot, cycle_size, ...)`: it stores its
arguments and calls `Field.__init__`; no branch inspects `cycle_size`, so the
constructor never raises.  `none` would model a raised exception; the source
has no failing path, hence the result is always `some`. -/
def cycleBufferFieldInit (cycle_size : Int) : Option CycleBufferFieldData :=
  some { cycle_size := cycle_size }

/-- `CycleBufferField.contribute_to_class`: the field names added to the model
class, in order: `name_ptr`, `name_len`, then `name_i` for
`i in range(cycle_size)` (an empty range when `cycle_size <= 0`). -/
def layoutFieldNames (name : String) (cycle_size : Int) : List String :=
  [name ++ "_ptr", name ++ "_len"] ++
    (List.range cycle_size.toNat).map (fun i => name ++ "_" ++ toString i)

/-- States whose control fields are in range and whose pointer is still zero
unless the buffer has filled up.  Every state reachable by appends satisfies
this (`inv_freshState`, `inv_appendObject`). -/
def Inv {α : Type} (cap : Nat) (s : BufferState α) : Prop :=
  s.pointer < cap ∧ s.length ≤ cap ∧ (s.pointer = 0 ∨ s.length = cap)

theorem inv_freshState {α : Type} (cap : Nat) (hcap : 1 ≤ cap) (d : α) :
    Inv cap (freshState d) :=
  ⟨hcap, Nat.zero_le _, Or.inl rfl⟩

theorem inv_appendObject {α : Type} {cap : Nat} {s : BufferState α}
    (h : Inv cap s) (v : α) : Inv cap (appendObject cap s v) := by
  obtain ⟨hp, hl, hz⟩ := h
  have hcap : 0 < cap := Nat.lt_of_le_of_lt (Nat.zero_le _) hp
  refine ⟨?_, ?_, ?_⟩
  · by_cases hfull : s.length = cap
    · simp only [appendObject, hfull, if_pos rfl]
      exact Nat.mod_lt _ hcap
    · simpa [appendObject, hfull] using hp
  · simp [appendObject]
  · by_cases hfull : s.length = cap
    · simp [appendObject, hfull]
    · rcases hz with h0 | h0
      · simp [appendObject, hfull, h0]
      · exact absurd h0 hfull

theorem inv_foldl_appendObject {α : Type} {cap : Nat} {s : BufferState α}
    (h : Inv cap s) (vs : List α) :
    Inv cap (vs.foldl (appendObject cap) s) := by
  induction vs generalizing s with
  | nil => exact h
  | cons v vs ih => exact ih (inv_appendObject h v)

theorem rotate_range {cap p : Nat} (h : p ≤ cap) :
    (List.range cap).map (fun i => (p + i) % cap) =
      (List.range cap).drop p ++ (List.range cap).take p := by
  have hsplit : List.range cap = List.range p ++ (List.range (cap - p)).map (p + ·) := by
    rw [← List.range_add]
    congr 1
    omega
  have hsplit2 :
      List.range cap = List.range (cap - p) ++ (List.range p).map ((cap - p) + ·) := by
    rw [← List.range_add]
    congr 1
    omega
  have hdrop : (List.range cap).drop p = (List.range (cap - p)).map (p + ·) := by
    conv_lhs => rw [hsplit]
    simp
  have htake : (List.range cap).take p = List.range p := by
    rw [List.take_range, Nat.min_eq_left h]
  rw [hdrop, htake]
  conv_lhs => rw [hsplit2]
  rw [List.map_append, List.map_map]
  congr 1
  · refine List.map_congr_left ?_
    intro i hi
    rw [List.mem_range] at hi
    exact Nat.mod_eq_of_lt (by omega)
  · have hid : ∀ k ∈ List.range p,
        ((fun i => (p + i) % cap) ∘ ((cap - p) + ·)) k = id k := by
      intro k hk
      rw [List.mem_range] at hk
      simp only [Function.comp, id]
      have h1 : p + (cap - p + k) = cap + k := by omega
      rw [h1, Nat.add_mod_left, Nat.mod_eq_of_lt (by omega)]
    rw [List.map_congr_left hid, List.map_id]

theorem view_rot {α : Type} {cap : Nat} {s : BufferState α} (h : Inv cap s) :
    view cap s =
      (List.range s.length).map (fun i => s.slots ((s.pointer + i) % cap)) := by
  obtain ⟨hp, hl, hz⟩ := h
  rcases hz with h0 | hfull
  · unfold view bufferIndexes
    rw [h0]
    simp only [List.drop_zero, List.take_zero, List.append_nil, List.take_range,
      Nat.min_eq_left hl]
    refine List.map_congr_left ?_
    intro i hi
    rw [List.mem_range] at hi
    rw [Nat.zero_add, Nat.mod_eq_of_lt (Nat.lt_of_lt_of_le hi hl)]
  · unfold view bufferIndexes
    rw [hfull]
    have hlen : ((List.range cap).drop s.pointer).length ≤ cap := by
      simp [Nat.sub_le]
    rw [List.take_of_length_le hlen, ← rotate_range (Nat.le_of_lt hp), List.map_map]
    rfl

theorem view_length {α : Type} {cap : Nat} {s : BufferState α} (h : Inv cap s) :
    (view cap s).length = s.length := by
  rw [view_rot h]
  simp

theorem mod_shift_ne {cap p k : Nat} (hk0 : 0 < k) (hk : k < cap) :
    (p + k) % cap ≠ p := by
  intro hEq
  have hdm := Nat.div_add_mod (p + k) cap
  rw [hEq] at hdm
  have hmul : cap * ((p + k) / cap) = k := by omega
  rcases Nat.eq_zero_or_pos ((p + k) / cap) with hq | hq
  · rw [hq, Nat.mul_zero] at hmul
    omega
  · have hge : cap ≤ cap * ((p + k) / cap) := Nat.le_mul_of_pos_right cap hq
    omega

theorem view_appendObject {α : Type} {cap : Nat} {s : BufferState α}
    (h : Inv cap s) (v : α) :
    view cap (appendObject cap s v) =
      (if s.length = cap then (view cap s).drop 1 else view cap s) ++ [v] := by
  have h' := inv_appendObject h v
  obtain ⟨hp, hl, hz⟩ := h
  have hcap : 0 < cap := Nat.lt_of_le_of_lt (Nat.zero_le _) hp
  rw [view_rot h', view_rot ⟨hp, hl, hz⟩]
  by_cases hfull : s.length = cap
  · have htarget : (s.pointer + s.length) % cap = s.pointer := by
      rw [hfull, Nat.add_mod_right, Nat.mod_eq_of_lt hp]
    have hlen' : (appendObject cap s v).length = cap := by
      simp only [appendObject, hfull]
      omega
    have hptr' : (appendObject cap s v).pointer = (s.pointer + 1) % cap := by
      simp [appendObject, hfull]
    have hslots : ∀ j, (appendObject cap s v).slots j =
        if j = s.pointer then v else s.slots j := by
      intro j
      simp [appendObject, htarget]
    rw [hlen', hptr', if_pos hfull, hfull]
    have hmod : ∀ i, ((s.pointer + 1) % cap + i) % cap = (s.pointer + 1 + i) % cap :=
      fun i => Nat.mod_add_mod (s.pointer + 1) cap i
    simp only [hmod, hslots]
    have hsplit : List.range cap = List.range (cap - 1) ++ [cap - 1] := by
      conv_lhs => rw [show cap = (cap - 1) + 1 by omega]
      exact List.range_succ (cap - 1)
    have hlast : (s.pointer + 1 + (cap - 1)) % cap = s.pointer := by
      have h1 : s.pointer + 1 + (cap - 1) = s.pointer + cap := by omega
      rw [h1, Nat.add_mod_right, Nat.mod_eq_of_lt hp]
    have hleft : (List.range (cap - 1)).map
          (fun i => if (s.pointer + 1 + i) % cap = s.pointer then v
            else s.slots ((s.pointer + 1 + i) % cap)) =
        (List.range (cap - 1)).map (fun i => s.slots ((s.pointer + 1 + i) % cap)) := by
      refine List.map_congr_left ?_
      intro i hi
      rw [List.mem_range] at hi
      have hne : (s.pointer + 1 + i) % cap ≠ s.pointer := by
        have h1 : s.pointer + 1 + i = s.pointer + (1 + i) := by omega
        rw [h1]
        exact mod_shift_ne (by omega) (by omega)
      rw [if_neg hne]
    have hdrop1 : ((List.range cap).map
          (fun i => s.slots ((s.pointer + i) % cap))).drop 1 =
        (List.range (cap - 1)).map (fun i => s.slots ((s.pointer + 1 + i) % cap)) := by
      rw [← List.map_drop]
      have hd : (List.range cap).drop 1 = (List.range (cap - 1)).map (1 + ·) := by
        conv_lhs => rw [show cap = 1 + (cap - 1) by omega, List.range_add]
        simp
      rw [hd, List.map_map]
      refine List.map_congr_left ?_
      intro i hi
      simp only [Function.comp]
      rw [Nat.add_assoc]
    rw [hdrop1, hsplit, List.map_append, List.map_cons, List.map_nil, if_pos hlast,
      hleft]
  · have h0 : s.pointer = 0 := by
      rcases hz with h0 | h0
      · exact h0
      · exact absurd h0 hfull
    have hlt : s.length < cap := Nat.lt_of_le_of_ne hl hfull
    have htarget : (s.pointer + s.length) % cap = s.length := by
      rw [h0, Nat.zero_add, Nat.mod_eq_of_lt hlt]
    have hlen' : (appendObject cap s v).length = s.length + 1 := by
      simp only [appendObject]
      omega
    have hptr' : (appendObject cap s v).pointer = s.pointer := by
      simp [appendObject, hfull]
    have hslots : ∀ j, (appendObject cap s v).slots j =
        if j = s.length then v else s.slots j := by
      intro j
      simp [appendObject, htarget]
    rw [hlen', hptr', if_neg hfull, h0]
    simp only [Nat.zero_add, hslots]
    rw [List.range_succ, List.map_append, List.map_cons, List.map_nil]
    have hlast : s.length % cap = s.length := Nat.mod_eq_of_lt hlt
    rw [hlast, if_pos rfl]
    have hleft : (List.range s.length).map
          (fun i => if i % cap = s.length then v else s.slots (i % cap)) =
        (List.range s.length).map (fun i => s.slots (i % cap)) := by
      refine List.map_congr_left ?_
      intro i hi
      rw [List.mem_range] at hi
      have hne : i % cap ≠ s.length := by
        rw [Nat.mod_eq_of_lt (by omega)]
        omega
      rw [if_neg hne]
    rw [hleft]

theorem appendDatabase_eq_appendObject {α : Type} (cap : Nat) (s : BufferState α)
    (v : α) : appendDatabase cap s v = appendObject cap s v := by
  cases s with
  | mk p l f =>
    simp only [appendDatabase, appendObject, BufferState.mk.injEq]
    refine ⟨trivial, by split <;> omega, ?_⟩
    funext i
    by_cases hEq : (p + l) % cap = i
    · rw [if_pos hEq, if_pos hEq.symm]
    · rw [if_neg hEq, if_neg (fun hc => hEq hc.symm)]

theorem foldl_appendDatabase_eq {α : Type} (cap : Nat) (s : BufferState α)
    (vs : List α) :
    vs.foldl (appendDatabase cap) s = vs.foldl (appendObject cap) s := by
  induction vs generalizing s with
  | nil => rfl
  | cons v vs ih =>
    simp only [List.foldl_cons, appendDatabase_eq_appendObject, ih]

/-- Claim C1: for every capacity `N ≥ 1`, the atomic update protocol
(`append_database`, modelled by `appendDatabase`: the slot CASE, pointer CASE
and length CASE expressions evaluated against the persisted state) computes
exactly the same new state as the staged append (`append_object`, modelled by
`appendObject`) on every state, so applying any finite sequence of appends one
at a time through either path yields the same final state and the same final
logical view. -/
theorem appendDatabase_refines_appendObject {α : Type} (cap : Nat) (_hcap : 1 ≤ cap)
    (s : BufferState α) (vs : List α) :
    (∀ (t : BufferState α) (v : α), appendDatabase cap t v = appendObject cap t v) ∧
    vs.foldl (appendDatabase cap) s = vs.foldl (appendObject cap) s ∧
    view cap (vs.foldl (appendDatabase cap) s) =
      view cap (vs.foldl (appendObject cap) s) := by
  refine ⟨fun t v => appendDatabase_eq_appendObject cap t v,
    foldl_appendDatabase_eq cap s vs, ?_⟩
  rw [foldl_appendDatabase_eq cap s vs]

theorem appendDatabase_refines_appendObject_witness :
    (1 : Nat) ≤ 2 ∧
    ((∀ (t : BufferState Nat) (v : Nat), appendDatabase 2 t v = appendObject 2 t v) ∧
     ([1, 2, 3] : List Nat).foldl (appendDatabase 2) (freshState 0) =
       ([1, 2, 3] : List Nat).foldl (appendObject 2) (freshState 0) ∧
     view 2 (([1, 2, 3] : List Nat).foldl (appendDatabase 2) (freshState 0)) =
       view 2 (([1, 2, 3] : List Nat).foldl (appendObject 2) (freshState 0))) :=
  ⟨by decide, appendDatabase_refines_appendObject 2 (by decide) (freshState 0) [1, 2, 3]⟩

/-- Claim C2: starting from the freshly created zeroed buffer and applying any
sequence of staged appends, one more `append_object` makes the new view equal
the previous view with the value appended at the end, with the oldest element
additionally dropped when the previous view already held `capacity` elements;
the view length never exceeds `capacity`. -/
theorem appendObject_view_spec {α : Type} (cap : Nat) (hcap : 1 ≤ cap) (d : α)
    (vs : List α) (v : α) :
    view cap (appendObject cap (vs.foldl (appendObject cap) (freshState d)) v) =
      (if (view cap (vs.foldl (appendObject cap) (freshState d))).length = cap
        then (view cap (vs.foldl (appendObject cap) (freshState d))).drop 1
        else view cap (vs.foldl (appendObject cap) (freshState d))) ++ [v] ∧
    (view cap (appendObject cap (vs.foldl (appendObject cap) (freshState d)) v)).length
      ≤ cap := by
  have hinv : Inv cap (vs.foldl (appendObject cap) (freshState d)) :=
    inv_foldl_appendObject (inv_freshState cap hcap d) vs
  have hinv' := inv_appendObject hinv v
  constructor
  · rw [view_appendObject hinv v, view_length hinv]
  · rw [view_length hinv']
    exact hinv'.2.1

theorem appendObject_view_spec_witness :
    (1 : Nat) ≤ 2 ∧
    (view 2 (appendObject 2 (([5, 6] : List Nat).foldl (appendObject 2) (freshState 0)) 7) =
      (if (view 2 (([5, 6] : List Nat).foldl (appendObject 2) (freshState 0))).length = 2
        then (view 2 (([5, 6] : List Nat).foldl (appendObject 2) (freshState 0))).drop 1
        else view 2 (([5, 6] : List Nat).foldl (appendObject 2) (freshState 0))) ++ [7] ∧
    (view 2 (appendObject 2 (([5, 6] : List Nat).foldl (appendObject 2) (freshState 0)) 7)).length
      ≤ 2) :=
  ⟨by decide, appendObject_view_spec 2 (by decide) 0 [5, 6] 7⟩

/-- Claim C3: for every state with `pointer ∈ [0, capacity)` and
`length ∈ [0, capacity]`, the staged append writes the value into slot
`(pointer + length) mod capacity`, sets the new length to
`min(length + 1, capacity)`, and sets the new pointer to
`(pointer + 1) mod capacity` when `length = capacity` and leaves it unchanged
otherwise. -/
theorem appendObject_steps {α : Type} (cap : Nat) (s : BufferState α) (v : α)
    (_hp : s.pointer < cap) (_hl : s.length ≤ cap) :
    appendObject cap s v =
      { pointer := if s.length = cap then (s.pointer + 1) % cap else s.pointer
        length := min (s.length + 1) cap
        slots := fun i => if i = (s.pointer + s.length) % cap then v else s.slots i } :=
  rfl

theorem appendObject_steps_witness :
    (({ pointer := 1, length := 2, slots := fun j => j } : BufferState Nat).pointer < 3 ∧
      ({ pointer := 1, length := 2, slots := fun j => j } : BufferState Nat).length ≤ 3) ∧
    appendObject 3 ({ pointer := 1, length := 2, slots := fun j => j } : BufferState Nat) 9 =
      { pointer :=
          if ({ pointer := 1, length := 2, slots := fun j => j } : BufferState Nat).length = 3
          then (({ pointer := 1, length := 2, slots := fun j => j } : BufferState Nat).pointer + 1) % 3
          else ({ pointer := 1, length := 2, slots := fun j => j } : BufferState Nat).pointer
        length :=
          min (({ pointer := 1, length := 2, slots := fun j => j } : BufferState Nat).length + 1) 3
        slots := fun i =>
          if i = (({ pointer := 1, length := 2, slots := fun j => j } : BufferState Nat).pointer +
              ({ pointer := 1, length := 2, slots := fun j => j } : BufferState Nat).length) % 3
          then 9
          else ({ pointer := 1, length := 2, slots := fun j => j } : BufferState Nat).slots i } :=
  ⟨⟨by decide, by decide⟩,
    appendObject_steps 3 { pointer := 1, length := 2, slots := fun j => j } 9
      (by decide) (by decide)⟩

/-- Claim C4 (corrected, counterexample part): the claim as stated fails.  At
capacity 3 with `pointer = 1`, `length = 1`, the code's view is
`[slots 1, slots 0]` (the `[:ptr]` tail slice is appended without truncating
the concatenation to `length`), not the claimed `[slots ((1 + 0) % 3)] =
[slots 1]`. -/
theorem view_rot_formula_counterexample :
    ¬ (view 3 ({ pointer := 1, length := 1, slots := fun j => j } : BufferState Nat) =
        (List.range
            ({ pointer := 1, length := 1, slots := fun j => j } : BufferState Nat).length).map
          (fun i =>
            ({ pointer := 1, length := 1, slots := fun j => j } : BufferState Nat).slots
              ((({ pointer := 1, length := 1, slots := fun j => j } : BufferState Nat).pointer
                + i) % 3))) := by
  decide

/-- Claim C4 (amended): for every state with `pointer ∈ [0, capacity)` and
`length ∈ [0, capacity]` that additionally satisfies `pointer = 0` or
`length = capacity` (every state reachable by appends does), the view equals
the `length` values `slots[(pointer + i) mod capacity]` for `i ∈ [0, length)`,
oldest first. -/
theorem view_rot_formula_of_inv {α : Type} (cap : Nat) (s : BufferState α)
    (hp : s.pointer < cap) (hl : s.length ≤ cap)
    (hz : s.pointer = 0 ∨ s.length = cap) :
    view cap s = (List.range s.length).map (fun i => s.slots ((s.pointer + i) % cap)) :=
  view_rot ⟨hp, hl, hz⟩

theorem view_rot_formula_of_inv_witness :
    (({ pointer := 1, length := 3, slots := fun j => j } : BufferState Nat).pointer < 3 ∧
      ({ pointer := 1, length := 3, slots := fun j => j } : BufferState Nat).length ≤ 3 ∧
      (({ pointer := 1, length := 3, slots := fun j => j } : BufferState Nat).pointer = 0 ∨
        ({ pointer := 1, length := 3, slots := fun j => j } : BufferState Nat).length = 3)) ∧
    view 3 ({ pointer := 1, length := 3, slots := fun j => j } : BufferState Nat) =
      (List.range
          ({ pointer := 1, length := 3, slots := fun j => j } : BufferState Nat).length).map
        (fun i =>
          ({ pointer := 1, length := 3, slots := fun j => j } : BufferState Nat).slots
            ((({ pointer := 1, length := 3, slots := fun j => j } : BufferState Nat).pointer
              + i) % 3)) :=
  ⟨⟨by decide, by decide, by decide⟩,
    view_rot_formula_of_inv 3 { pointer := 1, length := 3, slots := fun j => j }
      (by decide) (by decide) (by decide)⟩

/-- Claim C5 (corrected, counterexample part): the claim as stated fails.  At
capacity 3 with `length = 0` and `pointer = 1`, the code's view is
`[slots 0]` (the `[:ptr]` slice survives), not the empty sequence. -/
theorem empty_view_counterexample :
    ¬ (view 3 ({ pointer := 1, length := 0, slots := fun _ => (0 : Nat) } :
        BufferState Nat) = []) := by
  decide

/-- Claim C5 (amended): a state whose length field is 0 and whose pointer
field is 0 (as in every length-0 state reachable from the fresh buffer) reads
as the empty sequence. -/
theorem view_empty_of_zero_pointer {α : Type} (cap : Nat) (s : BufferState α)
    (h0 : s.length = 0) (hp : s.pointer = 0) :
    view cap s = [] := by
  unfold view bufferIndexes
  rw [h0, hp]
  simp

theorem view_empty_of_zero_pointer_witness :
    ((freshState (0 : Nat)).length = 0 ∧ (freshState (0 : Nat)).pointer = 0) ∧
    view 2 (freshState (0 : Nat)) = [] :=
  ⟨⟨rfl, rfl⟩, view_empty_of_zero_pointer 2 (freshState 0) rfl rfl⟩

/-- Claim C6: the bounds `pointer ∈ [0, capacity)` and `length ∈ [0, capacity]`
hold for the freshly created zeroed state and are preserved by every staged
append, for every capacity `≥ 1` and every value. -/
theorem appendObject_preserves_bounds {α : Type} (cap : Nat) (hcap : 1 ≤ cap)
    (d : α) :
    ((freshState d).pointer < cap ∧ (freshState d).length ≤ cap) ∧
    ∀ (s : BufferState α) (v : α), s.pointer < cap → s.length ≤ cap →
      (appendObject cap s v).pointer < cap ∧ (appendObject cap s v).length ≤ cap := by
  refine ⟨⟨hcap, Nat.zero_le _⟩, ?_⟩
  intro s v hp _hl
  constructor
  · by_cases hfull : s.length = cap
    · simp only [appendObject, hfull, if_pos rfl]
      exact Nat.mod_lt _ (by omega)
    · simpa [appendObject, hfull] using hp
  · simp [appendObject]

theorem appendObject_preserves_bounds_witness :
    (1 : Nat) ≤ 2 ∧
    (((freshState (0 : Nat)).pointer < 2 ∧ (freshState (0 : Nat)).length ≤ 2) ∧
      ∀ (s : BufferState Nat) (v : Nat), s.pointer < 2 → s.length ≤ 2 →
        (appendObject 2 s v).pointer < 2 ∧ (appendObject 2 s v).length ≤ 2) :=
  ⟨by decide, appendObject_preserves_bounds 2 (by decide) 0⟩

/-- Claim C7: a single append — staged or atomic — writes exactly one slot:
exactly one index `i < capacity` equals `(pointer + length) mod capacity`,
that slot receives the new value, and every other slot is unchanged. -/
theorem append_single_slot_write {α : Type} (cap : Nat) (s : BufferState α) (v : α)
    (hp : s.pointer < cap) (_hl : s.length ≤ cap) :
    (∃! i, i < cap ∧ i = (s.pointer + s.length) % cap) ∧
    (appendObject cap s v).slots ((s.pointer + s.length) % cap) = v ∧
    (appendDatabase cap s v).slots ((s.pointer + s.length) % cap) = v ∧
    ∀ j, j ≠ (s.pointer + s.length) % cap →
      (appendObject cap s v).slots j = s.slots j ∧
      (appendDatabase cap s v).slots j = s.slots j := by
  have hcap : 0 < cap := by omega
  have htlt : (s.pointer + s.length) % cap < cap := Nat.mod_lt _ hcap
  refine ⟨⟨(s.pointer + s.length) % cap, ⟨htlt, rfl⟩, ?_⟩, ?_, ?_, ?_⟩
  · rintro y ⟨_, hy2⟩
    exact hy2
  · simp [appendObject]
  · simp [appendDatabase]
  · intro j hj
    constructor
    · simp [appendObject, hj]
    · simp only [appendDatabase]
      rw [if_neg (fun hc => hj hc.symm)]

theorem append_single_slot_write_witness :
    (({ pointer := 1, length := 2, slots := fun j => j } : BufferState Nat).pointer < 3 ∧
      ({ pointer := 1, length := 2, slots := fun j => j } : BufferState Nat).length ≤ 3) ∧
    ((∃! i, i < 3 ∧ i =
        (({ pointer := 1, length := 2, slots := fun j => j } : BufferState Nat).pointer +
          ({ pointer := 1, length := 2, slots := fun j => j } : BufferState Nat).length) % 3) ∧
      (appendObject 3 ({ pointer := 1, length := 2, slots := fun j => j } : BufferState Nat)
          9).slots
        ((({ pointer := 1, length := 2, slots := fun j => j } : BufferState Nat).pointer +
          ({ pointer := 1, length := 2, slots := fun j => j } : BufferState Nat).length) % 3) = 9 ∧
      (appendDatabase 3 ({ pointer := 1, length := 2, slots := fun j => j } : BufferState Nat)
          9).slots
        ((({ pointer := 1, length := 2, slots := fun j => j } : BufferState Nat).pointer +
          ({ pointer := 1, length := 2, slots := fun j => j } : BufferState Nat).length) % 3) = 9 ∧
      ∀ j, j ≠ (({ pointer := 1, length := 2, slots := fun j => j } : BufferState Nat).pointer +
            ({ pointer := 1, length := 2, slots := fun j => j } : BufferState Nat).length) % 3 →
        (appendObject 3 ({ pointer := 1, length := 2, slots := fun j => j } : BufferState Nat)
            9).slots j =
          ({ pointer := 1, length := 2, slots := fun j => j } : BufferState Nat).slots j ∧
        (appendDatabase 3 ({ pointer := 1, length := 2, slots := fun j => j } : BufferState Nat)
            9).slots j =
          ({ pointer := 1, length := 2, slots := fun j => j } : BufferState Nat).slots j) :=
  ⟨⟨by decide, by decide⟩,
    append_single_slot_write 3 { pointer := 1, length := 2, slots := fun j => j } 9
      (by decide) (by decide)⟩

/-- Claim C8: in the `ForeignKey` branch of the view, every position resolves
through the bulk lookup: a key the lookup does not know yields `none` (the
missing-value marker) in that position instead of failing, and found keys
appear as the resolved records in the same oldest-first order; the resolved
view has the same length as the raw key view. -/
theorem viewFK_resolution {κ ρ : Type} (cap : Nat) (s : BufferState κ)
    (lookup : κ → Option ρ) (i : Nat) :
    (viewFK cap s lookup).length = (view cap s).length ∧
    (viewFK cap s lookup)[i]? = ((view cap s)[i]?).map lookup := by
  have hEq : viewFK cap s lookup = (view cap s).map lookup := by
    unfold viewFK view
    rw [List.map_map]
    rfl
  rw [hEq, List.length_map, List.getElem?_map]
  exact ⟨rfl, rfl⟩

/-- Claim C9 (corrected, counterexample part): the claim as stated fails.
`CycleBufferField.__init__` performs no validation of `cycle_size`, so
constructing a field with capacity `0 < 1` succeeds rather than being
rejected. -/
theorem capacity_validation_counterexample :
    (0 : Int) < 1 ∧ cycleBufferFieldInit 0 ≠ none := by
  decide

/-- Claim C9 (amended): constructing a buffer with `capacity < 1` is not
rejected: `CycleBufferField.__init__` succeeds for every `cycle_size`, and
`contribute_to_class` then adds the pointer and length fields plus
`max(cycle_size, 0)` slot fields without error, so a buffer with
`capacity < 1` can exist (its appends would only fail later, at modulo-by-zero
time). -/
theorem cycleBufferFieldInit_total :
    ∀ (z : Int) (name : String),
      (cycleBufferFieldInit z).isSome = true ∧
      (layoutFieldNames name z).length = 2 + z.toNat := by
  intro z name
  refine ⟨rfl, ?_⟩
  simp [layoutFieldNames]
  omega

/-- Claim C10: assigning any value directly to the buffer attribute is a
silent no-op — `CycleBufferDescriptor.__set__` is `pass`, so the pointer
field, the length field and every slot field are unchanged and no error is
raised. -/
theorem descriptorSet_noop {α β : Type} (s : BufferState α) (v : β) :
    (descriptorSet s v).pointer = s.pointer ∧
    (descriptorSet s v).length = s.length ∧
    ∀ i, (descriptorSet s v).slots i = s.slots i :=
  ⟨rfl, rfl, fun _ => rfl⟩
end CycleBuffer
